import Mathlib

/-!
# CHIP-8 interpreter (`src/main.cpp`): shallow embedding and verified properties

The interpreter is the body of the `while (win.isOpen())` loop of `main`.  One
iteration of that loop (lines 124-398) is embedded as the function `Chip8.step`
on an explicit machine state.  The two values an iteration takes from outside
the machine state are parameters of `step`:

* `keypad` : the value of the variable `keypad` after the event loop (lines 82-120);
* `rnd`    : the value returned by `rand()` (line 275).

Machine integers are natural numbers, reduced `% 256` (`uint8_t`) or `% 65536`
(`uint16_t`) wherever the C++ code stores into a variable of that width.
-/

namespace Chip8

/-! ## Data model -/

/-- The display image `fb` (line 68): `fb x y = true` iff the pixel at column `x`,
row `y` has a red channel `> 0` (it is `sf::Color::White`). -/
abbrev Framebuffer := Nat → Nat → Bool

/-- The variables of `main` that make up the machine (lines 52, 68, 72-77).
`stack` has the top of the `std::stack` at its head. -/
structure Machine where
  memory : Nat → Nat
  regs8 : Nat → Nat
  regi : Nat
  regpc : Nat
  stack : List Nat
  fb : Framebuffer

/-- The reasons for which the loop body executes `return 1`.
* `StackUnderflow` : line 151 ("Program tried to return with an empty stack.")
* `StackOverflow` : line 169 ("Reached callstack limit")
* `InvalidOpcode` : the `// TODO: crash` returns at lines 199, 247, 262, 333, 382
* `ProgramCounterOutOfRange` : line 397 ("Program counter exceeded 0xFFF address.") -/
inductive HaltReason where
  | StackUnderflow
  | StackOverflow
  | InvalidOpcode
  | ProgramCounterOutOfRange
  deriving DecidableEq, Repr

/-- What one iteration of the interpreter loop does.
* `ok s` : the iteration reaches the end of the loop body with state `s`;
* `halt r s` : the iteration executes `return 1` for reason `r`, the variables being `s`;
* `hang s` : the iteration enters the `for (;;);` of line 389 and never leaves it;
* `ub` : the iteration indexes `memory` outside its 0x1000 bytes, or shifts a 32-bit
  `int` by 32 or more (line 318, 325): C++ gives this no meaning. -/
inductive Outcome where
  | ok (s : Machine)
  | halt (r : HaltReason) (s : Machine)
  | hang (s : Machine)
  | ub

/-- Size of `memory` (line 52). -/
def memSize : Nat := 0x1000

/-- Assignment `a[i] = v` on an array seen as a function. -/
def setAt (a : Nat → Nat) (i v : Nat) : Nat → Nat :=
  fun j => if j = i then v else a j

/-- Conversion of an `int` to `uint8_t` (reduction modulo 256). -/
def wrap8 (z : Int) : Nat := (z % 256).toNat

/-- The image after `fb.create(64, 32)`: every pixel black (lines 69, 144). -/
def blankFb : Framebuffer := fun _ _ => false

/-- Statement `fb.setPixel(x, y, b ? White : Black)` (line 310). -/
def setPixel (fb : Framebuffer) (x y : Nat) (b : Bool) : Framebuffer :=
  fun px py => if px = x ∧ py = y then b else fb px py

/-! ## Decoding (lines 124-129) -/

/-- Line 124: `uint16_t opcode = memory[regpc] << 8 | memory[regpc + 1]`. -/
def fetch (memory : Nat → Nat) (pc : Nat) : Nat :=
  ((memory pc <<< 8) ||| memory (pc + 1)) % 65536

/-- Line 125: `type = opcode >> 12`. -/
def opType (opcode : Nat) : Nat := opcode >>> 12

/-- Line 126: index of `vx`, `(opcode >> 8) & 0x000F`. -/
def opX (opcode : Nat) : Nat := (opcode >>> 8) &&& 0x000F

/-- Line 127: index of `vy`, `(opcode >> 4) & 0x000F`. -/
def opY (opcode : Nat) : Nat := (opcode >>> 4) &&& 0x000F

/-- Line 128: `nnn = opcode & 0x0FFF`. -/
def opNNN (opcode : Nat) : Nat := opcode &&& 0x0FFF

/-- Line 128: `n = opcode & 0x000F`. -/
def opN (opcode : Nat) : Nat := opcode &&& 0x000F

/-- Line 129: `kk = opcode & 0x00FF`. -/
def opKK (opcode : Nat) : Nat := opcode &&& 0x00FF

/-! ## Sprite drawing (lines 278-312) -/

/-- Line 303: `bool spritePixel = sprite[byte] & (1 << (7 - i))`. -/
def spriteBit (b i : Nat) : Bool := decide (b &&& (1 <<< (7 - i)) ≠ 0)

/-- Body of the inner loop (lines 299-310) for sprite row `byte` and bit `i`.
The accumulator is `none` once `sprite[byte]` has been read outside `memory`;
otherwise it holds the image and the value of `regvf`. -/
def drawPixel (memory : Nat → Nat) (regi x y byte : Nat)
    (acc : Option (Framebuffer × Nat)) (i : Nat) : Option (Framebuffer × Nat) :=
  match acc with
  | none => none
  | some (fb, vf) =>
    if 64 ≤ x + i then some (fb, vf)
    else if 32 ≤ y + byte then some (fb, vf)
    else if memSize ≤ regi + byte then none
    else
      let currentPixel := fb (x + i) (y + byte)
      let spritePixel := spriteBit (memory (regi + byte)) i
      some (setPixel fb (x + i) (y + byte) (xor currentPixel spritePixel),
            if currentPixel && spritePixel then 1 else vf)

/-- Inner loop `for (size_t i = 0; i <= 7; ++i)` (line 296). -/
def drawRow (memory : Nat → Nat) (regi x y : Nat)
    (acc : Option (Framebuffer × Nat)) (byte : Nat) : Option (Framebuffer × Nat) :=
  (List.range 8).foldl (drawPixel memory regi x y byte) acc

/-- Outer loop `for (size_t byte = 0; byte < n; ++byte)` (line 295), entered with
`regvf = 0` (line 293). -/
def drawSprite (memory : Nat → Nat) (regi x y n : Nat) (fb : Framebuffer) :
    Option (Framebuffer × Nat) :=
  (List.range n).foldl (drawRow memory regi x y) (some (fb, 0))

/-- Case `0xD` (lines 278-312).  `x` and `y` are copies of the registers taken
before `regvf` is reset; `n` is the low nibble of the opcode. -/
def execDraw (opcode : Nat) (s : Machine) : Outcome :=
  let x := s.regs8 (opX opcode)
  let y := s.regs8 (opY opcode)
  let n := opN opcode
  if 15 < n then .ok s
  else
    match drawSprite s.memory s.regi x y n s.fb with
    | none => .ub
    | some (fb, vf) => .ok { s with regs8 := setAt s.regs8 0xF vf, fb := fb }

/-! ## Register-register group (lines 212-249) -/

/-- Case `0x8`.  `vx` and `vy` are references into `regs8` and `regvf` is a
reference to `regs8[0xF]`, so every statement reads the register file as left by
the statement before it. -/
def execAlu (opcode : Nat) (s : Machine) : Outcome :=
  let X := opX opcode
  let Y := opY opcode
  let r := s.regs8
  match opN opcode with
  | 0x0 => .ok { s with regs8 := setAt r X (r Y) }
  | 0x1 => .ok { s with regs8 := setAt r X (r X ||| r Y) }
  | 0x2 => .ok { s with regs8 := setAt r X (r X &&& r Y) }
  | 0x3 => .ok { s with regs8 := setAt r X (r X ^^^ r Y) }
  | 0x4 =>
    let r1 := setAt r 0xF (if 255 < r X + r Y then 1 else 0)
    .ok { s with regs8 := setAt r1 X ((r1 X + r1 Y) % 256) }
  | 0x5 =>
    let r1 := setAt r 0xF (if r Y < r X then 1 else 0)
    .ok { s with regs8 := setAt r1 X (wrap8 ((r1 X : Int) - (r1 Y : Int))) }
  | 0x6 =>
    let r1 := setAt r 0xF ((r X &&& 0b00000001) % 256)
    .ok { s with regs8 := setAt r1 X (r1 X >>> 1) }
  | 0x7 =>
    let r1 := setAt r 0xF (if r Y < r X then 1 else 0)
    .ok { s with regs8 := setAt r1 X (wrap8 ((r1 Y : Int) - (r1 X : Int))) }
  | 0xE =>
    let r1 := setAt r 0xF ((r X &&& 0b10000000) % 256)
    .ok { s with regs8 := setAt r1 X ((r1 X <<< 1) % 256) }
  | _ => .halt .InvalidOpcode s

/-! ## Keypad group (lines 314-335) -/

/-- Case `0xE`.  `keypad >> vx` is a shift of a 32-bit `int`. -/
def execKey (keypad opcode : Nat) (s : Machine) : Outcome :=
  let vx := s.regs8 (opX opcode)
  match opKK opcode with
  | 0x9E =>
    if 32 ≤ vx then .ub
    else if (keypad >>> vx) &&& 0x1 ≠ 0 then .ok { s with regpc := (s.regpc + 2) % 65536 }
    else .ok s
  | 0xA1 =>
    if 32 ≤ vx then .ub
    else if (keypad >>> vx) &&& 0x1 = 0 then .ok { s with regpc := (s.regpc + 2) % 65536 }
    else .ok s
  | _ => .halt .InvalidOpcode s

/-! ## Miscellaneous group (lines 337-384) -/

/-- Case `0xF`. -/
def execMisc (opcode : Nat) (s : Machine) : Outcome :=
  let X := opX opcode
  let vx := s.regs8 X
  match opKK opcode with
  | 0x07 => .ok { s with regs8 := setAt s.regs8 X 0 }
  | 0x0A => .ok s
  | 0x15 => .ok s
  | 0x18 => .ok s
  | 0x29 => .ok { s with regi := (5 * (vx &&& 0xF)) % 65536 }
  | 0x33 =>
    if memSize ≤ s.regi + 2 then .ub
    else .ok { s with memory := setAt (setAt (setAt s.memory s.regi 0) (s.regi + 1) 0) (s.regi + 2) vx }
  | 0x1E => .ok { s with regi := (s.regi + vx) % 65536 }
  | 0x55 =>
    -- line 373: std::copy(&memory[regi], &memory[regi] + (&vx - &regs8[0]), &regs8[0])
    if 0 < X ∧ memSize < s.regi + X then .ub
    else .ok { s with regs8 := fun j => if j < X then s.memory (s.regi + j) else s.regs8 j }
  | 0x65 =>
    -- line 377: std::copy(&regs8[0], &vx, &memory[regi])
    if 0 < X ∧ memSize < s.regi + X then .ub
    else .ok { s with memory := fun a =>
      if s.regi ≤ a ∧ a < s.regi + X then s.regs8 (a - s.regi) else s.memory a }
  | _ => .halt .InvalidOpcode s

/-! ## One iteration of the interpreter loop -/

/-- Lines 138-392: the dispatch, run on the state `s` whose `regpc` has already
been advanced by line 136. -/
def dispatch (keypad rnd opcode : Nat) (s : Machine) : Outcome :=
  let X := opX opcode
  let Y := opY opcode
  let vx := s.regs8 X
  let vy := s.regs8 Y
  let nnn := opNNN opcode
  let n := opN opcode
  let kk := opKK opcode
  if opcode = 0x00E0 then .ok { s with fb := blankFb }
  else if opcode = 0x00EE then
    match s.stack with
    | [] => .halt .StackUnderflow s
    | top :: rest => .ok { s with regpc := top, stack := rest }
  else
    match opType opcode with
    | 0x1 => .ok { s with regpc := nnn }
    | 0x2 =>
      if 16 ≤ s.stack.length then .halt .StackOverflow s
      else .ok { s with stack := s.regpc :: s.stack, regpc := nnn }
    | 0x3 => if vx = kk then .ok { s with regpc := (s.regpc + 2) % 65536 } else .ok s
    | 0x4 => if vx ≠ kk then .ok { s with regpc := (s.regpc + 2) % 65536 } else .ok s
    | 0x5 =>
      if n = 0 then
        if vx = vy then .ok { s with regpc := (s.regpc + 2) % 65536 }
        else .halt .InvalidOpcode s
      else .ok s
    | 0x6 => .ok { s with regs8 := setAt s.regs8 X kk }
    | 0x7 => .ok { s with regs8 := setAt s.regs8 X ((vx + kk) % 256) }
    | 0x8 => execAlu opcode s
    | 0x9 =>
      if n = 0 then
        if vx ≠ vy then .ok { s with regpc := (s.regpc + 2) % 65536 } else .ok s
      else .halt .InvalidOpcode s
    | 0xA => .ok { s with regi := nnn }
    | 0xB => .ok { s with regpc := (nnn + s.regs8 0) % 65536 }
    | 0xC => .ok { s with regs8 := setAt s.regs8 X ((rnd % 256) &&& kk) }
    | 0xD => execDraw opcode s
    | 0xE => execKey keypad opcode s
    | 0xF => execMisc opcode s
    | _ => .hang s

/-- Lines 394-398: the range check on `regpc` that ends a completed instruction. -/
def checkPC (s : Machine) : Outcome :=
  if 0xFFF ≤ s.regpc then .halt .ProgramCounterOutOfRange s else .ok s

/-- One iteration of the loop body, lines 124-398: fetch, `regpc += 2`, dispatch,
range check. -/
def step (keypad rnd : Nat) (s : Machine) : Outcome :=
  if memSize ≤ s.regpc + 1 then .ub
  else
    let opcode := fetch s.memory s.regpc
    match dispatch keypad rnd opcode { s with regpc := (s.regpc + 2) % 65536 } with
    | .ok s1 => checkPC s1
    | o => o

/-- Successive iterations of the loop, one per element of `inputs` (the pair
`(keypad, rnd)` seen by that iteration), stopping at the first iteration that does
not reach the end of the loop body. -/
def run : List (Nat × Nat) → Machine → Outcome
  | [], s => .ok s
  | inp :: rest, s =>
    match step inp.1 inp.2 s with
    | .ok s1 => run rest s1
    | o => o

/-- Lifting of a predicate on machine states to outcomes: it holds of the state an
outcome carries, if it carries one. -/
def Outcome.All (P : Machine → Prop) : Outcome → Prop
  | .ok s => P s
  | .halt _ s => P s
  | .hang s => P s
  | .ub => True

/-- The machine when the loop is first entered (lines 72-77, 69): registers and
`regi` zero, `regpc = 0x200`, empty stack, black image; `memory` is whatever the
glyph copy and the ROM load left. -/
def initial (memory : Nat → Nat) : Machine where
  memory := memory
  regs8 := fun _ => 0
  regi := 0
  regpc := 0x200
  stack := []
  fb := blankFb

/-- States the loop can be in at the start of an iteration: the initial state, and
every state left by an iteration that reached the end of the loop body, for any
`keypad` and `rand()` values. -/
inductive Reachable : Machine → Prop where
  | init (memory : Nat → Nat) : Reachable (initial memory)
  | next (keypad rnd : Nat) (s s1 : Machine) :
      Reachable s → step keypad rnd s = .ok s1 → Reachable s1

/-! ## Closed form of the sprite draw, after section 4.2 of the specification -/

/-- Sprite bit `c` of row `r` lands inside the 64x32 grid on a pixel that is on in
`fb`, and is itself on. -/
def pixelHit (memory : Nat → Nat) (regi x y : Nat) (fb : Framebuffer) (r c : Nat) : Bool :=
  decide (x + c < 64) && decide (y + r < 32) && fb (x + c) (y + r) &&
    spriteBit (memory (regi + r)) c

/-- Some bit of the `n`-row sprite collides with the image `fb`. -/
def spriteHit (memory : Nat → Nat) (regi x y n : Nat) (fb : Framebuffer) : Bool :=
  (List.range n).any (fun r => (List.range 8).any (pixelHit memory regi x y fb r))

/-- The image `fb` with the `n`-row sprite at `memory[regi ..]` XORed in at origin
`(x, y)`, pixels outside the grid dropped. -/
def composite (memory : Nat → Nat) (regi x y n : Nat) (fb : Framebuffer) : Framebuffer :=
  fun px py =>
    if x ≤ px ∧ px < x + 8 ∧ y ≤ py ∧ py < y + n ∧ px < 64 ∧ py < 32 then
      xor (fb px py) (spriteBit (memory (regi + (py - y))) (px - x))
    else fb px py

/-- The glyph table of lines 30-48. -/
def glyphs : List Nat :=
  [0xF0, 0x90, 0x90, 0x90, 0xF0,
   0x20, 0x60, 0x20, 0x20, 0x70,
   0xF0, 0x10, 0xF0, 0x80, 0xF0,
   0xF0, 0x10, 0xF0, 0x10, 0xF0,
   0x90, 0x90, 0xF0, 0x10, 0x10,
   0xF0, 0x80, 0xF0, 0x10, 0xF0,
   0xF0, 0x80, 0xF0, 0x90, 0xF0,
   0xF0, 0x10, 0x20, 0x40, 0x40,
   0xF0, 0x90, 0xF0, 0x90, 0xF0,
   0xF0, 0x90, 0xF0, 0x10, 0xF0,
   0xF0, 0x90, 0xF0, 0x90, 0x90,
   0xE0, 0x90, 0xE0, 0x90, 0xE0,
   0xF0, 0x80, 0x80, 0x80, 0xF0,
   0xE0, 0x90, 0x90, 0x90, 0xE0,
   0xF0, 0x80, 0xF0, 0x80, 0xF0,
   0xF0, 0x80, 0xF0, 0x80, 0x80]

/-- The memory when the loop is entered (lines 52-53 and 24): zero bytes, the glyph
table copied to address 0, the bytes of the ROM file copied to address `0x200`. -/
def loadedMemory (rom : List Nat) : Nat → Nat :=
  fun a =>
    if a < 80 then glyphs.getD a 0
    else if 0x200 ≤ a then rom.getD (a - 0x200) 0
    else 0

/-- The instruction about to be fetched in `s`, if it is a jump or a call, has an even
target: `nnn` for `1nnn` and `2nnn`, `nnn + V0` for `Bnnn`. -/
def jumpAligned (s : Machine) : Prop :=
  ((opType (fetch s.memory s.regpc) = 1 ∨ opType (fetch s.memory s.regpc) = 2) →
    opNNN (fetch s.memory s.regpc) % 2 = 0) ∧
  (opType (fetch s.memory s.regpc) = 0xB →
    (opNNN (fetch s.memory s.regpc) + s.regs8 0) % 2 = 0)

instance (s : Machine) : Decidable (jumpAligned s) := by
  unfold jumpAligned
  infer_instance

/-- States reached from the initial state by iterations that reach the end of the
loop body and whose jumps and calls all have even targets. -/
inductive ReachableAligned : Machine → Prop where
  | init (memory : Nat → Nat) : ReachableAligned (initial memory)
  | next (keypad rnd : Nat) (s s1 : Machine) :
      ReachableAligned s → jumpAligned s → step keypad rnd s = .ok s1 →
      ReachableAligned s1

/-- The invariant behind the alignment of `regpc`: `regpc` and every return address
on the stack are even. -/
def EvenControl (s : Machine) : Prop :=
  s.regpc % 2 = 0 ∧ ∀ a ∈ s.stack, a % 2 = 0

/-! ## Concrete machines -/

/-- The program `22 02 .. 00 EE` at address `0x200`: a call to `0x202`, where a
return sits. -/
def callRetMachine : Machine where
  memory := fun a => if a = 0x200 then 0x22 else if a = 0x201 then 0x02
    else if a = 0x203 then 0xEE else 0
  regs8 := fun _ => 0
  regi := 0
  regpc := 0x200
  stack := []
  fb := blankFb

/-- The program `2200` at address `0x200`: a subroutine that calls itself. -/
def selfCallMachine : Machine where
  memory := fun a => if a = 0x200 then 0x22 else 0
  regs8 := fun _ => 0
  regi := 0
  regpc := 0x200
  stack := []
  fb := blankFb

/-- A machine at `regpc = 0x200` holding the single instruction `hi lo` there, with
registers `regs`, `regi = 0`, an empty stack and a black image. -/
def oneInstr (hi lo : Nat) (regs : Nat → Nat) : Machine where
  memory := fun a => if a = 0x200 then hi else if a = 0x201 then lo else 0
  regs8 := regs
  regi := 0
  regpc := 0x200
  stack := []
  fb := blankFb

/-- Register file with `V0 = a`, `V1 = b`, `VF = f` and zero elsewhere. -/
def regs3 (a b f : Nat) : Nat → Nat :=
  fun j => if j = 0 then a else if j = 1 then b else if j = 0xF then f else 0

/-- A machine holding `00E0` at `0x200`, `D011` at `0x202` and at `0x204`, and the
sprite byte `0xFF` at `regi = 0x300`; `regpc`, the registers and the image are given. -/
def spriteMachine (pc : Nat) (regs : Nat → Nat) (fb : Framebuffer) : Machine where
  memory := fun a =>
    if a = 0x201 then 0xE0 else if a = 0x202 then 0xD0 else if a = 0x203 then 0x11
    else if a = 0x204 then 0xD0 else if a = 0x205 then 0x11 else if a = 0x300 then 0xFF else 0
  regs8 := regs
  regi := 0x300
  regpc := pc
  stack := []
  fb := fb

/-- The image whose only lit pixel is the top-left one. -/
def cornerFb : Framebuffer := fun px py => decide (px = 0 ∧ py = 0)

/-- A machine at `regpc = 0x200` holding the single instruction `hi lo` there,
with registers `regs`, `regi = 0x300` and the bytes `AA BB CC` at `0x300..0x302`. -/
def dataMachine (hi lo : Nat) (regs : Nat → Nat) : Machine where
  memory := fun a =>
    if a = 0x200 then hi else if a = 0x201 then lo else if a = 0x300 then 0xAA
    else if a = 0x301 then 0xBB else if a = 0x302 then 0xCC else 0
  regs8 := regs
  regi := 0x300
  regpc := 0x200
  stack := []
  fb := blankFb

/-- The program of exactly 17 nested calls: `2202` at `0x200`, `2204` at `0x202`,
..., `2222` at `0x220`, and zero bytes everywhere else. -/
def nestedCallMachine : Machine where
  memory := fun a =>
    if 0x200 ≤ a ∧ a < 0x222 then (if a % 2 = 0 then 0x22 else (a + 1) % 256) else 0
  regs8 := fun _ => 0
  regi := 0
  regpc := 0x200
  stack := []
  fb := blankFb

/-! ## Basic facts about the embedding -/

@[simp] theorem setAt_same (a : Nat → Nat) (i v : Nat) : setAt a i v i = v := by
  simp [setAt]

theorem setAt_other (a : Nat → Nat) (i v j : Nat) (h : j ≠ i) : setAt a i v j = a j := by
  simp [setAt, h]

/-- An opcode whose top nibble is not 0 is neither `0x00E0` nor `0x00EE`. -/
theorem ne_cls_ret_of_type (opcode : Nat) (h : opType opcode ≠ 0) :
    opcode ≠ 0x00E0 ∧ opcode ≠ 0x00EE := by
  constructor <;> intro h0 <;> subst h0 <;> exact h (by decide)

/-- Effect of a call `2nnn` on a stack that is not full (lines 165-173). -/
theorem step_call (keypad rnd : Nat) (s : Machine)
    (hfetch : s.regpc + 1 < memSize)
    (hop : opType (fetch s.memory s.regpc) = 2)
    (hdepth : s.stack.length < 16) :
    step keypad rnd s = checkPC { s with
      stack := (s.regpc + 2) % 65536 :: s.stack,
      regpc := opNNN (fetch s.memory s.regpc) } := by
  obtain ⟨h1, h2⟩ := ne_cls_ret_of_type _ (by rw [hop]; decide)
  have hd : ¬ 16 ≤ s.stack.length := by omega
  have hf : ¬ memSize ≤ s.regpc + 1 := by omega
  simp [step, dispatch, hf, h1, h2, hop, hd]

/-- A call `2nnn` on a stack of depth 16 or more halts (lines 166-170). -/
theorem step_call_full (keypad rnd : Nat) (s : Machine)
    (hfetch : s.regpc + 1 < memSize)
    (hop : opType (fetch s.memory s.regpc) = 2)
    (hdepth : 16 ≤ s.stack.length) :
    step keypad rnd s = .halt .StackOverflow { s with regpc := (s.regpc + 2) % 65536 } := by
  obtain ⟨h1, h2⟩ := ne_cls_ret_of_type _ (by rw [hop]; decide)
  have hf : ¬ memSize ≤ s.regpc + 1 := by omega
  simp [step, dispatch, hf, h1, h2, hop, hdepth]

/-- Effect of a return `00EE` on a non-empty stack (lines 146-156). -/
theorem step_ret (keypad rnd : Nat) (s : Machine) (top : Nat) (rest : List Nat)
    (hfetch : s.regpc + 1 < memSize)
    (hop : fetch s.memory s.regpc = 0x00EE)
    (hstack : s.stack = top :: rest) :
    step keypad rnd s = checkPC { s with regpc := top, stack := rest } := by
  have hf : ¬ memSize ≤ s.regpc + 1 := by omega
  simp [step, dispatch, hf, hop, hstack]

/-- A return `00EE` on an empty stack halts (lines 148-152). -/
theorem step_ret_empty (keypad rnd : Nat) (s : Machine)
    (hfetch : s.regpc + 1 < memSize)
    (hop : fetch s.memory s.regpc = 0x00EE)
    (hstack : s.stack = []) :
    step keypad rnd s = .halt .StackUnderflow { s with regpc := (s.regpc + 2) % 65536 } := by
  have hf : ¬ memSize ≤ s.regpc + 1 := by omega
  simp [step, dispatch, hf, hop, hstack]

/-! ## C1: call / return round trip -/

/-- C1. If the stack depth is below 16, the instruction at `P = regpc` is a call
`2nnn`, memory at `nnn` holds `00EE`, and both `nnn` and `P + 2` are below `0xFFF`,
then the call step and the return step both complete, and after them
`regpc = P + 2` while the stack, the registers, `regi`, memory and the display are
what they were before the call. -/
theorem call_return_round_trip (kp1 rnd1 kp2 rnd2 : Nat) (s : Machine)
    (hdepth : s.stack.length < 16)
    (hcall : opType (fetch s.memory s.regpc) = 2)
    (hret : fetch s.memory (opNNN (fetch s.memory s.regpc)) = 0x00EE)
    (hnnn : opNNN (fetch s.memory s.regpc) < 0xFFF)
    (hpc : s.regpc + 2 < 0xFFF) :
    ∃ s1 s2, step kp1 rnd1 s = .ok s1 ∧ step kp2 rnd2 s1 = .ok s2 ∧
      s2.regpc = s.regpc + 2 ∧ s2.stack = s.stack ∧ s2.regs8 = s.regs8 ∧
      s2.regi = s.regi ∧ s2.memory = s.memory ∧ s2.fb = s.fb := by
  have hmod : (s.regpc + 2) % 65536 = s.regpc + 2 := Nat.mod_eq_of_lt (by omega)
  have e1 := step_call kp1 rnd1 s (by simp [memSize]; omega) hcall hdepth
  rw [hmod] at e1
  have hn : ¬ 0xFFF ≤ opNNN (fetch s.memory s.regpc) := by omega
  simp only [checkPC, hn, if_false] at e1
  have e2 := step_ret kp2 rnd2
    { s with stack := (s.regpc + 2) :: s.stack, regpc := opNNN (fetch s.memory s.regpc) }
    (s.regpc + 2) s.stack (by simp [memSize]; omega) hret rfl
  have hp : ¬ 0xFFF ≤ s.regpc + 2 := by omega
  simp only [checkPC, hp, if_false] at e2
  exact ⟨_, _, e1, e2, rfl, rfl, rfl, rfl, rfl, rfl⟩

/-- C1 at a concrete machine: the program `2202 00EE` loaded at `0x200`. -/
theorem call_return_round_trip_witness :
    ∃ s1 s2, step 0 0 callRetMachine = .ok s1 ∧ step 0 0 s1 = .ok s2 ∧
      s2.regpc = callRetMachine.regpc + 2 ∧ s2.stack = callRetMachine.stack ∧
      s2.regs8 = callRetMachine.regs8 ∧ s2.regi = callRetMachine.regi ∧
      s2.memory = callRetMachine.memory ∧ s2.fb = callRetMachine.fb :=
  call_return_round_trip 0 0 0 0 callRetMachine (by decide) (by decide) (by decide)
    (by decide) (by decide)

/-! ## C2: stack errors -/

/-- The outcome of `checkPC` is never a stack error. -/
theorem checkPC_ne_halt_stack (s s1 : Machine) (r : HaltReason)
    (hr : r ≠ .ProgramCounterOutOfRange) : checkPC s ≠ .halt r s1 := by
  unfold checkPC
  split
  · intro h
    injection h with h1 _
    exact hr h1.symm
  · intro h
    cases h

/-- Along a chain of nested calls (`chain 0 .. chain 16` are addresses of call
instructions, the call at `chain i` targeting `chain (i + 1)` for `i < 16`), started
at depth `j` on `chain j`: as many calls as fit in the stack complete, each pushing
one return address. -/
theorem run_call_chain (chain : Nat → Nat) (inputs : List (Nat × Nat)) :
    ∀ (s : Machine) (j : Nat),
      s.stack.length = j → j + inputs.length ≤ 16 → s.regpc = chain j →
      (∀ i, i ≤ 16 → chain i < 0xFFF ∧ opType (fetch s.memory (chain i)) = 2) →
      (∀ i, i < 16 → opNNN (fetch s.memory (chain i)) = chain (i + 1)) →
      ∃ s1, run inputs s = .ok s1 ∧ s1.stack.length = j + inputs.length ∧
        s1.memory = s.memory ∧ s1.regpc = chain (j + inputs.length) := by
  induction inputs with
  | nil => intro s j hd _ hpc _ _; exact ⟨s, rfl, hd, rfl, hpc⟩
  | cons inp rest ih =>
    intro s j hd hlen hpc hcall htgt
    simp only [List.length_cons] at hlen
    obtain ⟨hj, hty⟩ := hcall j (by omega)
    have hnn := htgt j (by omega)
    rw [← hpc] at hj hty hnn
    have e := step_call inp.1 inp.2 s (by simp [memSize]; omega) hty (by omega)
    have hlt : ¬ 0xFFF ≤ chain (j + 1) := by have := (hcall (j + 1) (by omega)).1; omega
    simp only [checkPC, hnn, hlt, if_false] at e
    obtain ⟨s1, h1, h2, h3, h4⟩ := ih
      { s with stack := (s.regpc + 2) % 65536 :: s.stack, regpc := chain (j + 1) } (j + 1)
      (by simp only [List.length_cons]; omega) (by omega) rfl hcall htgt
    refine ⟨s1, ?_, ?_, ?_, ?_⟩
    · simp only [run, e]; exact h1
    · rw [h2]; simp only [List.length_cons]; omega
    · rw [h3]
    · rw [h4]; simp only [List.length_cons]; congr 1; omega

/-- Along a chain of nested calls, the call attempted at depth 16 halts with
`StackOverflow`. -/
theorem run_call_chain_overflow (chain : Nat → Nat) (inputs : List (Nat × Nat)) :
    ∀ (s : Machine) (j : Nat),
      s.stack.length = j → j + inputs.length = 17 → j ≤ 16 → s.regpc = chain j →
      (∀ i, i ≤ 16 → chain i < 0xFFF ∧ opType (fetch s.memory (chain i)) = 2) →
      (∀ i, i < 16 → opNNN (fetch s.memory (chain i)) = chain (i + 1)) →
      ∃ s1, run inputs s = .halt .StackOverflow s1 ∧ s1.stack.length = 16 := by
  induction inputs with
  | nil => intro s j _ hlen hj _ _ _; simp at hlen; omega
  | cons inp rest ih =>
    intro s j hd hlen hj16 hpc hcall htgt
    simp only [List.length_cons] at hlen
    obtain ⟨hj, hty⟩ := hcall j hj16
    rw [← hpc] at hj hty
    by_cases hfull : j = 16
    · have e := step_call_full inp.1 inp.2 s (by simp [memSize]; omega) hty (by omega)
      exact ⟨{ s with regpc := (s.regpc + 2) % 65536 }, by simp only [run, e],
        by simp only; omega⟩
    · have hnn := htgt j (by omega)
      rw [← hpc] at hnn
      have e := step_call inp.1 inp.2 s (by simp [memSize]; omega) hty (by omega)
      have hlt : ¬ 0xFFF ≤ chain (j + 1) := by have := (hcall (j + 1) (by omega)).1; omega
      simp only [checkPC, hnn, hlt, if_false] at e
      obtain ⟨s1, h1, h2⟩ := ih
        { s with stack := (s.regpc + 2) % 65536 :: s.stack, regpc := chain (j + 1) } (j + 1)
        (by simp only [List.length_cons]; omega) (by omega) (by omega) rfl hcall htgt
      exact ⟨s1, by simp only [run, e]; exact h1, h2⟩

/-- C2. In a state whose stack depth is at most 16 and whose fetch is inside memory:
* a step on a call `2nnn` halts with `StackOverflow` iff the depth is 16; at a
  smaller depth it pushes the post-fetch `regpc` and sets `regpc = nnn`, then
  makes the range check on `regpc`;
* a step on `00EE` halts with `StackUnderflow` iff the stack is empty; otherwise it
  pops the top into `regpc`, then makes the range check;
* from an empty stack, for any 17 nested calls (call instructions at
  `chain 0 .. chain 16`, each of the first 16 targeting the next; nothing is asked of
  memory beyond them), every run of at most 16 steps completes with one more stack
  entry per call, and the 17th step halts with `StackOverflow` at depth 16. -/
theorem stack_errors_exact (s : Machine)
    (hfetch : s.regpc + 1 < memSize) (hdepth : s.stack.length ≤ 16) :
    (∀ keypad rnd, opType (fetch s.memory s.regpc) = 2 →
      ((∃ s1, step keypad rnd s = .halt .StackOverflow s1) ↔ s.stack.length = 16) ∧
      (s.stack.length < 16 → step keypad rnd s = checkPC { s with
          stack := (s.regpc + 2) % 65536 :: s.stack,
          regpc := opNNN (fetch s.memory s.regpc) })) ∧
    (∀ keypad rnd, fetch s.memory s.regpc = 0x00EE →
      ((∃ s1, step keypad rnd s = .halt .StackUnderflow s1) ↔ s.stack = []) ∧
      (∀ top rest, s.stack = top :: rest →
        step keypad rnd s = checkPC { s with regpc := top, stack := rest })) ∧
    (∀ chain : Nat → Nat, s.stack = [] → chain 0 = s.regpc →
      (∀ i, i ≤ 16 → chain i < 0xFFF ∧ opType (fetch s.memory (chain i)) = 2) →
      (∀ i, i < 16 → opNNN (fetch s.memory (chain i)) = chain (i + 1)) →
      (∀ inputs : List (Nat × Nat), inputs.length ≤ 16 →
        ∃ s1, run inputs s = .ok s1 ∧ s1.stack.length = inputs.length) ∧
      (∀ inputs : List (Nat × Nat), inputs.length = 17 →
        ∃ s1, run inputs s = .halt .StackOverflow s1 ∧ s1.stack.length = 16)) := by
  refine ⟨?_, ?_, ?_⟩
  · intro keypad rnd hop
    refine ⟨⟨?_, ?_⟩, fun hlt => step_call keypad rnd s hfetch hop hlt⟩
    · rintro ⟨s1, h1⟩
      by_contra hne
      rw [step_call keypad rnd s hfetch hop (by omega)] at h1
      exact checkPC_ne_halt_stack _ _ _ (by decide) h1
    · intro h16
      exact ⟨_, step_call_full keypad rnd s hfetch hop (by omega)⟩
  · intro keypad rnd hop
    refine ⟨⟨?_, ?_⟩, fun top rest hst => step_ret keypad rnd s top rest hfetch hop hst⟩
    · rintro ⟨s1, h1⟩
      cases hst : s.stack with
      | nil => rfl
      | cons top rest =>
        rw [step_ret keypad rnd s top rest hfetch hop hst] at h1
        exact absurd h1 (checkPC_ne_halt_stack _ _ _ (by decide))
    · intro hnil
      exact ⟨_, step_ret_empty keypad rnd s hfetch hop hnil⟩
  · intro chain hnil h0 hcall htgt
    have hlen0 : s.stack.length = 0 := by simp [hnil]
    constructor
    · intro inputs hlen
      obtain ⟨s1, h1, h2, _, _⟩ :=
        run_call_chain chain inputs s 0 hlen0 (by omega) h0.symm hcall htgt
      exact ⟨s1, h1, by omega⟩
    · intro inputs hlen
      exact run_call_chain_overflow chain inputs s 0 hlen0 (by omega) (by omega) h0.symm
        hcall htgt

/-- C2 at a concrete machine: the program of exactly 17 nested calls
(`2202` at `0x200`, `2204` at `0x202`, ..., `2222` at `0x220`, zero bytes after)
completes its first 16 calls and halts with `StackOverflow` at the 17th, the stack
holding 16 return addresses. -/
theorem stack_errors_exact_witness :
    (∃ s1, run (List.replicate 16 (0, 0)) nestedCallMachine = .ok s1 ∧
      s1.stack.length = 16) ∧
    (∃ s1, run (List.replicate 17 (0, 0)) nestedCallMachine = .halt .StackOverflow s1 ∧
      s1.stack.length = 16) :=
  have h := (stack_errors_exact nestedCallMachine (by decide) (by decide)).2.2
    (fun i => 0x200 + 2 * i) rfl rfl (by decide) (by decide)
  ⟨h.1 (List.replicate 16 (0, 0)) (by decide), h.2 (List.replicate 17 (0, 0)) rfl⟩

/-! ## C3: call-stack depth invariant -/

theorem execAlu_stack (opcode : Nat) (s : Machine) :
    (execAlu opcode s).All (fun s1 => s1.stack = s.stack) := by
  unfold execAlu
  split <;> simp [Outcome.All]

theorem execKey_stack (keypad opcode : Nat) (s : Machine) :
    (execKey keypad opcode s).All (fun s1 => s1.stack = s.stack) := by
  unfold execKey
  simp only
  split <;> (repeat' split) <;> simp [Outcome.All]

theorem execMisc_stack (opcode : Nat) (s : Machine) :
    (execMisc opcode s).All (fun s1 => s1.stack = s.stack) := by
  unfold execMisc
  simp only
  split <;> (repeat' split) <;> simp [Outcome.All]

theorem execDraw_stack (opcode : Nat) (s : Machine) :
    (execDraw opcode s).All (fun s1 => s1.stack = s.stack) := by
  unfold execDraw
  simp only
  split_ifs
  · simp [Outcome.All]
  · split <;> simp [Outcome.All]

theorem Outcome.All_mono {P Q : Machine → Prop} (o : Outcome) (h : ∀ s, P s → Q s)
    (ho : o.All P) : o.All Q := by
  cases o <;> simp_all [Outcome.All]

/-- The dispatch never leaves more than 16 entries on a stack that had at most 16. -/
theorem dispatch_depth (keypad rnd opcode : Nat) (s : Machine)
    (h : s.stack.length ≤ 16) :
    (dispatch keypad rnd opcode s).All (fun s1 => s1.stack.length ≤ 16) := by
  have hs : ∀ o : Outcome, o.All (fun s1 => s1.stack = s.stack) →
      o.All (fun s1 => s1.stack.length ≤ 16) :=
    fun o ho => Outcome.All_mono o (fun s1 h1 => by rw [h1]; exact h) ho
  unfold dispatch
  simp only
  by_cases h1 : opcode = 0x00E0
  · rw [if_pos h1]
    simpa [Outcome.All] using h
  rw [if_neg h1]
  by_cases h2 : opcode = 0x00EE
  · rw [if_pos h2]
    split
    · simpa [Outcome.All] using h
    · rename_i top rest hst
      simp only [Outcome.All]
      rw [hst] at h
      simp only [List.length_cons] at h
      omega
  rw [if_neg h2]
  split
  all_goals repeat' split
  all_goals first
    | exact hs _ (execAlu_stack _ _)
    | exact hs _ (execKey_stack _ _ _)
    | exact hs _ (execMisc_stack _ _)
    | exact hs _ (execDraw_stack _ _)
    | (simp only [Outcome.All, List.length_cons]; omega)

/-- One iteration never leaves more than 16 entries on a stack that had at most 16. -/
theorem step_depth (keypad rnd : Nat) (s : Machine) (h : s.stack.length ≤ 16) :
    (step keypad rnd s).All (fun s1 => s1.stack.length ≤ 16) := by
  unfold step
  split_ifs
  · trivial
  · have hd := dispatch_depth keypad rnd (fetch s.memory s.regpc)
      { s with regpc := (s.regpc + 2) % 65536 } h
    revert hd
    simp only
    split
    · rename_i s1 heq
      rw [heq]
      intro hd
      unfold checkPC
      split_ifs <;> exact hd
    · rename_i o hne
      exact id

/-- C3. Every state reachable from the initial state (empty stack, `regpc = 0x200`,
any memory, any `keypad` and `rand()` values along the way) has a call stack of
depth at most 16; so has the state in which an iteration started there halts or
hangs. -/
theorem stack_depth_invariant (s : Machine) (h : Reachable s) :
    s.stack.length ≤ 16 ∧
      ∀ keypad rnd, (step keypad rnd s).All (fun s1 => s1.stack.length ≤ 16) := by
  have hd : s.stack.length ≤ 16 := by
    induction h with
    | init memory => simp [initial]
    | next keypad rnd s s1 _ hstep ih =>
      have := step_depth keypad rnd s ih
      rw [hstep] at this
      exact this
  exact ⟨hd, fun keypad rnd => step_depth keypad rnd s hd⟩

/-- C3 at a concrete reachable state: the self-calling program after its first call. -/
theorem stack_depth_invariant_witness :
    ∃ s1, step 0 0 (initial selfCallMachine.memory) = .ok s1 ∧ s1.stack.length ≤ 16 :=
  ⟨_, rfl, (stack_depth_invariant _
    (Reachable.next 0 0 (initial selfCallMachine.memory) _ (Reachable.init _) rfl)).1⟩

/-! ## C4, C5: addition and subtraction with flag -/

/-- A step on an opcode of type 8 runs the register-register group on the state
with `regpc` advanced, then the range check. -/
theorem step_alu (keypad rnd : Nat) (s : Machine)
    (hfetch : s.regpc + 1 < memSize)
    (hty : opType (fetch s.memory s.regpc) = 8) :
    step keypad rnd s =
      match execAlu (fetch s.memory s.regpc) { s with regpc := (s.regpc + 2) % 65536 } with
      | .ok s1 => checkPC s1
      | o => o := by
  obtain ⟨h1, h2⟩ := ne_cls_ret_of_type _ (by rw [hty]; decide)
  have hf : ¬ memSize ≤ s.regpc + 1 := by omega
  simp [step, dispatch, hf, h1, h2, hty]

theorem pc_advance (s : Machine) (hfetch : s.regpc + 1 < memSize) :
    (s.regpc + 2) % 65536 = s.regpc + 2 := by
  apply Nat.mod_eq_of_lt
  simp only [memSize] at hfetch
  omega

/-- C4. For an instruction `8xy4` with `x` and `y` both different from `0xF`: the
instruction completes with `VF = 1` if the old `Vx + Vy > 255` and `VF = 0`
otherwise, `Vx = (old Vx + old Vy) mod 256`, every other register, `regi`, memory,
stack and display unchanged, and `regpc` advanced by 2. -/
theorem add_with_carry (keypad rnd : Nat) (s : Machine)
    (hfetch : s.regpc + 1 < memSize)
    (hty : opType (fetch s.memory s.regpc) = 8)
    (hn : opN (fetch s.memory s.regpc) = 4)
    (hx : opX (fetch s.memory s.regpc) ≠ 0xF)
    (hy : opY (fetch s.memory s.regpc) ≠ 0xF) :
    ∃ s1, step keypad rnd s = checkPC s1 ∧
      s1.regs8 0xF = (if 255 < s.regs8 (opX (fetch s.memory s.regpc)) +
        s.regs8 (opY (fetch s.memory s.regpc)) then 1 else 0) ∧
      s1.regs8 (opX (fetch s.memory s.regpc)) =
        (s.regs8 (opX (fetch s.memory s.regpc)) + s.regs8 (opY (fetch s.memory s.regpc))) % 256 ∧
      (∀ j, j ≠ opX (fetch s.memory s.regpc) → j ≠ 0xF → s1.regs8 j = s.regs8 j) ∧
      s1.regi = s.regi ∧ s1.memory = s.memory ∧ s1.stack = s.stack ∧ s1.fb = s.fb ∧
      s1.regpc = s.regpc + 2 := by
  have e := step_alu keypad rnd s hfetch hty
  simp only [execAlu, hn] at e
  refine ⟨_, e, ?_, ?_, ?_, rfl, rfl, rfl, rfl, pc_advance s hfetch⟩
  · simp [setAt, hx, hy, Ne.symm hx]
  · simp [setAt, hx, hy]
  · intro j hj hF
    simp [setAt, hj, hF]

/-- C4 at the spec's example: `V0 = 0xFF`, `V1 = 0x01`, opcode `8014` gives
`V0 = 0x00`, `VF = 1`. -/
theorem add_with_carry_witness :
    ∃ s1, step 0 0 (oneInstr 0x80 0x14 (regs3 0xFF 0x01 0)) = checkPC s1 ∧
      s1.regs8 0xF = 1 ∧ s1.regs8 0 = 0x00 := by
  obtain ⟨s1, h1, h2, h3, _⟩ := add_with_carry 0 0 (oneInstr 0x80 0x14 (regs3 0xFF 0x01 0))
    (by decide) (by decide) (by decide) (by decide) (by decide)
  exact ⟨s1, h1, h2, h3⟩

/-- C5. For an instruction `8xy5` with `x` and `y` both different from `0xF`: the
instruction completes with `VF = 1` if the old `Vx > Vy` and `VF = 0` otherwise, and
`Vx = (old Vx - old Vy) mod 256` (subtraction of integers). -/
theorem sub_with_flag (keypad rnd : Nat) (s : Machine)
    (hfetch : s.regpc + 1 < memSize)
    (hty : opType (fetch s.memory s.regpc) = 8)
    (hn : opN (fetch s.memory s.regpc) = 5)
    (hx : opX (fetch s.memory s.regpc) ≠ 0xF)
    (hy : opY (fetch s.memory s.regpc) ≠ 0xF) :
    ∃ s1, step keypad rnd s = checkPC s1 ∧
      s1.regs8 0xF = (if s.regs8 (opX (fetch s.memory s.regpc)) >
        s.regs8 (opY (fetch s.memory s.regpc)) then 1 else 0) ∧
      (s1.regs8 (opX (fetch s.memory s.regpc)) : Int) =
        ((s.regs8 (opX (fetch s.memory s.regpc)) : Int) -
          (s.regs8 (opY (fetch s.memory s.regpc)) : Int)) % 256 := by
  have e := step_alu keypad rnd s hfetch hty
  simp only [execAlu, hn] at e
  refine ⟨_, e, ?_, ?_⟩
  · simp [setAt, hx, hy, Ne.symm hx]
  · simp only [setAt_same, setAt_other _ _ _ _ hx, setAt_other _ _ _ _ hy, wrap8]
    exact Int.toNat_of_nonneg (Int.emod_nonneg _ (by norm_num))

/-- C5 at the spec's example: `V0 = 0x01`, `V1 = 0x02`, opcode `8015` gives
`V0 = 0xFF`, `VF = 0`. -/
theorem sub_with_flag_witness :
    ∃ s1, step 0 0 (oneInstr 0x80 0x15 (regs3 0x01 0x02 0)) = checkPC s1 ∧
      s1.regs8 0xF = 0 ∧ (s1.regs8 0 : Int) = 0xFF := by
  obtain ⟨s1, h1, h2, h3⟩ := sub_with_flag 0 0 (oneInstr 0x80 0x15 (regs3 0x01 0x02 0))
    (by decide) (by decide) (by decide) (by decide) (by decide)
  exact ⟨s1, h1, h2, h3⟩

/-! ## C6: shift left -/

/-- What `8xyE` does for `x` different from `0xF` (lines 240-243): `VF` receives
the masked value `old Vx & 0x80` and `Vx = (old Vx * 2) mod 256`. -/
theorem shift_left_general (keypad rnd : Nat) (s : Machine)
    (hfetch : s.regpc + 1 < memSize)
    (hty : opType (fetch s.memory s.regpc) = 8)
    (hn : opN (fetch s.memory s.regpc) = 0xE)
    (hx : opX (fetch s.memory s.regpc) ≠ 0xF) :
    ∃ s1, step keypad rnd s = checkPC s1 ∧
      s1.regs8 0xF = (s.regs8 (opX (fetch s.memory s.regpc)) &&& 0x80) % 256 ∧
      s1.regs8 (opX (fetch s.memory s.regpc)) =
        (s.regs8 (opX (fetch s.memory s.regpc)) * 2) % 256 := by
  have e := step_alu keypad rnd s hfetch hty
  simp only [execAlu, hn] at e
  refine ⟨_, e, ?_, ?_⟩
  · simp [setAt, hx, Ne.symm hx]
  · simp [setAt, hx, Nat.shiftLeft_eq]

/-- C6, the code at the spec's example: with `V0 = 0b10000001`, opcode `800E`
completes with `V0 = 0b00000010` but `VF = 0x80`, not the `VF = 1` of the claim. -/
theorem shift_left_flag_is_mask :
    ∃ s1, step 0 0 (oneInstr 0x80 0x0E (regs3 0b10000001 0 0)) = .ok s1 ∧
      s1.regs8 0 = 0b00000010 ∧ s1.regs8 0xF = 0x80 ∧ s1.regs8 0xF ≠ 1 :=
  ⟨_, rfl, by decide, by decide, by decide⟩

/-! ## C7: flag-setting instructions whose destination is `VF` -/

/-- C7, the code with destination `x = 0xF`: in each of `8F04`, `8F05`, `8F06`,
`8F07`, `8F0E` below the flag computed from the operands before the operation is 1,
and the value left in `VF` is the arithmetic or shift result on the register that
already holds the flag, not 1. -/
theorem flag_overwritten_when_dest_is_vf :
    (255 < (regs3 0x01 0 0xFF) 0xF + (regs3 0x01 0 0xFF) 0 ∧
      ∃ s1, step 0 0 (oneInstr 0x8F 0x04 (regs3 0x01 0 0xFF)) = .ok s1 ∧ s1.regs8 0xF = 2) ∧
    ((regs3 0x03 0 0x05) 0xF > (regs3 0x03 0 0x05) 0 ∧
      ∃ s1, step 0 0 (oneInstr 0x8F 0x05 (regs3 0x03 0 0x05)) = .ok s1 ∧ s1.regs8 0xF = 254) ∧
    ((regs3 0 0 0x01) 0xF &&& 1 = 1 ∧
      ∃ s1, step 0 0 (oneInstr 0x8F 0x06 (regs3 0 0 0x01)) = .ok s1 ∧ s1.regs8 0xF = 0) ∧
    ((regs3 0x03 0 0x05) 0xF > (regs3 0x03 0 0x05) 0 ∧
      ∃ s1, step 0 0 (oneInstr 0x8F 0x07 (regs3 0x03 0 0x05)) = .ok s1 ∧ s1.regs8 0xF = 2) ∧
    ((regs3 0 0 0x80) 0xF ≥ 0x80 ∧
      ∃ s1, step 0 0 (oneInstr 0x8F 0x0E (regs3 0 0 0x80)) = .ok s1 ∧ s1.regs8 0xF = 0) :=
  ⟨⟨by decide, _, rfl, by decide⟩, ⟨by decide, _, rfl, by decide⟩,
    ⟨by decide, _, rfl, by decide⟩, ⟨by decide, _, rfl, by decide⟩,
    ⟨by decide, _, rfl, by decide⟩⟩

/-! ## The sprite draw loops compute the closed form -/

/-- The source's `sprite[byte] & (1 << (7 - i))` is bit `7 - i` of the byte. -/
theorem spriteBit_eq_testBit (b i : Nat) : spriteBit b i = b.testBit (7 - i) := by
  unfold spriteBit
  rw [Nat.one_shiftLeft]
  by_cases h : b.testBit (7 - i) = true
  · rw [h]
    apply decide_eq_true
    intro h0
    have h1 : (b &&& 2 ^ (7 - i)).testBit (7 - i) = true := by
      rw [Nat.testBit_and, h, Nat.testBit_two_pow_self]; rfl
    rw [h0, Nat.zero_testBit] at h1
    cases h1
  · have hf : b.testBit (7 - i) = false := by simpa using h
    rw [hf]
    apply decide_eq_false
    intro hne
    apply hne
    apply Nat.eq_of_testBit_eq
    intro j
    rw [Nat.testBit_and, Nat.zero_testBit, Nat.testBit_two_pow]
    by_cases hj : 7 - i = j
    · subst hj; rw [hf]; rfl
    · simp [hj]

/-- The inner loop over the first `k` bits of row `byte`. -/
theorem drawRow_fold (memory : Nat → Nat) (regi x y byte : Nat)
    (hmem : regi + byte < memSize) (fb0 : Framebuffer) (vf0 : Nat) (k : Nat) :
    (List.range k).foldl (drawPixel memory regi x y byte) (some (fb0, vf0)) =
      some (fun px py =>
          if py = y + byte ∧ x ≤ px ∧ px < x + k ∧ px < 64 ∧ py < 32 then
            xor (fb0 px py) (spriteBit (memory (regi + byte)) (px - x))
          else fb0 px py,
        if (List.range k).any (pixelHit memory regi x y fb0 byte) then 1 else vf0) := by
  induction k with
  | zero =>
    simp only [List.range_zero, List.foldl_nil, List.any_nil]
    congr 2
    funext px py
    rw [if_neg (by omega)]
  | succ k ih =>
    rw [List.range_succ, List.foldl_append, ih]
    simp only [List.foldl_cons, List.foldl_nil, drawPixel, List.any_append, List.any_cons,
      List.any_nil, Bool.or_false]
    have hm : ¬ memSize ≤ regi + byte := by omega
    by_cases hx : 64 ≤ x + k
    · rw [if_pos hx]
      congr 2
      · funext px py
        by_cases hc : py = y + byte ∧ x ≤ px ∧ px < x + k ∧ px < 64 ∧ py < 32
        · rw [if_pos hc, if_pos (by omega)]
        · rw [if_neg hc, if_neg (by omega)]
      · have : pixelHit memory regi x y fb0 byte k = false := by
          simp [pixelHit]; intro h; omega
        rw [this, Bool.or_false]
    · rw [if_neg hx]
      by_cases hy : 32 ≤ y + byte
      · rw [if_pos hy]
        congr 2
        · funext px py
          rw [if_neg (by omega), if_neg (by omega)]
        · have : pixelHit memory regi x y fb0 byte k = false := by
            simp [pixelHit]; intro _ h; omega
          rw [this, Bool.or_false]
      · rw [if_neg hy, if_neg hm]
        have hcur : (if True ∧ x ≤ x + k ∧ x + k < x + k ∧ x + k < 64 ∧
            y + byte < 32 then
              xor (fb0 (x + k) (y + byte)) (spriteBit (memory (regi + byte)) (x + k - x))
            else fb0 (x + k) (y + byte)) = fb0 (x + k) (y + byte) := by
          rw [if_neg (by omega)]
        simp only [hcur]
        congr 2
        · funext px py
          simp only [setPixel]
          by_cases hp : px = x + k ∧ py = y + byte
          · rw [if_pos hp, if_pos (by omega)]
            obtain ⟨hp1, hp2⟩ := hp
            subst hp1 hp2
            rw [Nat.add_sub_cancel_left]
          · rw [if_neg hp]
            by_cases hc : py = y + byte ∧ x ≤ px ∧ px < x + k ∧ px < 64 ∧ py < 32
            · rw [if_pos hc, if_pos (by omega)]
            · rw [if_neg hc, if_neg (by omega)]
        · have hk : pixelHit memory regi x y fb0 byte k =
              (fb0 (x + k) (y + byte) && spriteBit (memory (regi + byte)) k) := by
            have h1 : x + k < 64 := by omega
            have h2 : y + byte < 32 := by omega
            simp [pixelHit, h1, h2]
          rw [hk]
          cases (List.range k).any (pixelHit memory regi x y fb0 byte) <;>
            cases fb0 (x + k) (y + byte) <;>
            cases spriteBit (memory (regi + byte)) k <;> simp

/-- The outer loop over the first `m` rows, started with any flag value `vf0`. -/
theorem drawSprite_fold (memory : Nat → Nat) (regi x y : Nat) (fb0 : Framebuffer)
    (vf0 : Nat) (m : Nat) (hmem : regi + m ≤ memSize) :
    (List.range m).foldl (drawRow memory regi x y) (some (fb0, vf0)) =
      some (composite memory regi x y m fb0,
        if (List.range m).any
            (fun r => (List.range 8).any (pixelHit memory regi x y fb0 r)) then 1
        else vf0) := by
  induction m with
  | zero =>
    simp only [List.range_zero, List.foldl_nil, List.any_nil]
    congr 2
    funext px py
    simp only [composite]
    rw [if_neg (by omega)]
  | succ m ih =>
    rw [List.range_succ, List.foldl_append, ih (by omega)]
    simp only [List.foldl_cons, List.foldl_nil, drawRow, List.any_append, List.any_cons,
      List.any_nil, Bool.or_false]
    rw [drawRow_fold memory regi x y m (by omega)]
    have hsame : ∀ c, composite memory regi x y m fb0 (x + c) (y + m) = fb0 (x + c) (y + m) := by
      intro c
      simp only [composite]
      rw [if_neg (by omega)]
    have hhit : pixelHit memory regi x y (composite memory regi x y m fb0) m =
        pixelHit memory regi x y fb0 m := by
      funext c
      simp only [pixelHit, hsame]
    rw [hhit]
    congr 2
    · funext px py
      simp only [composite]
      split_ifs <;> first
        | rfl
        | (exfalso; omega)
        | (have e : py - y = m := by omega
           rw [e])
    · cases (List.range m).any (fun r => (List.range 8).any (pixelHit memory regi x y fb0 r)) <;>
        cases (List.range 8).any (pixelHit memory regi x y fb0 m) <;> simp

/-- The draw loops of lines 293-311 compute the composite image and the collision
flag, provided the `n` sprite bytes lie inside memory. -/
theorem drawSprite_eq (memory : Nat → Nat) (regi x y n : Nat) (fb : Framebuffer)
    (hmem : regi + n ≤ memSize) :
    drawSprite memory regi x y n fb =
      some (composite memory regi x y n fb,
        if spriteHit memory regi x y n fb then 1 else 0) :=
  drawSprite_fold memory regi x y fb 0 n hmem

/-- The collision test as a statement about rows and columns. -/
theorem spriteHit_iff (memory : Nat → Nat) (regi x y n : Nat) (fb : Framebuffer) :
    spriteHit memory regi x y n fb = true ↔
      ∃ r, r < n ∧ ∃ c, c < 8 ∧ x + c < 64 ∧ y + r < 32 ∧ fb (x + c) (y + r) = true ∧
        (memory (regi + r)).testBit (7 - c) = true := by
  simp only [spriteHit, List.any_eq_true, List.mem_range, pixelHit, Bool.and_eq_true,
    decide_eq_true_eq, spriteBit_eq_testBit]
  constructor
  · rintro ⟨r, hr, c, hc, ⟨⟨h1, h2⟩, h3⟩, h4⟩
    exact ⟨r, hr, c, hc, h1, h2, h3, h4⟩
  · rintro ⟨r, hr, c, hc, h1, h2, h3, h4⟩
    exact ⟨r, hr, c, hc, ⟨⟨h1, h2⟩, h3⟩, h4⟩

theorem opN_le (opcode : Nat) : opN opcode ≤ 15 := Nat.and_le_right

/-- A step on an opcode `Dxyn` whose sprite bytes lie inside memory. -/
theorem step_draw (keypad rnd : Nat) (s : Machine)
    (hfetch : s.regpc + 1 < memSize)
    (hty : opType (fetch s.memory s.regpc) = 0xD)
    (hmem : s.regi + opN (fetch s.memory s.regpc) ≤ memSize) :
    step keypad rnd s = checkPC { s with
      regpc := s.regpc + 2,
      regs8 := setAt s.regs8 0xF
        (if spriteHit s.memory s.regi (s.regs8 (opX (fetch s.memory s.regpc)))
          (s.regs8 (opY (fetch s.memory s.regpc))) (opN (fetch s.memory s.regpc)) s.fb
         then 1 else 0),
      fb := composite s.memory s.regi (s.regs8 (opX (fetch s.memory s.regpc)))
          (s.regs8 (opY (fetch s.memory s.regpc))) (opN (fetch s.memory s.regpc)) s.fb } := by
  obtain ⟨h1, h2⟩ := ne_cls_ret_of_type _ (by rw [hty]; decide)
  have hf : ¬ memSize ≤ s.regpc + 1 := by omega
  have hn : ¬ 15 < opN (fetch s.memory s.regpc) := by have := opN_le (fetch s.memory s.regpc); omega
  simp only [step, dispatch, hf, h1, h2, hty, if_false, execDraw, hn,
    drawSprite_eq _ _ _ _ _ _ hmem, pc_advance s hfetch]

/-! ## C8: sprite compositing with clipping -/

/-- C8. For an instruction `Dxyn` whose `n` sprite bytes lie inside memory
(`regi + n <= 4096`): the instruction completes, and every grid pixel `(px, py)`
with `Vx <= px < Vx + 8` and `Vy <= py < Vy + n` becomes the old pixel XOR bit
`7 - (px - Vx)` of `memory[regi + (py - Vy)]`, every other grid pixel keeps its
value (nothing wraps to the opposite edge), nothing outside the grid is written, and
memory, `regi` and the registers `V0..VE` are unchanged. -/
theorem draw_compositing_clipped (keypad rnd : Nat) (s : Machine)
    (hfetch : s.regpc + 1 < memSize)
    (hty : opType (fetch s.memory s.regpc) = 0xD)
    (hmem : s.regi + opN (fetch s.memory s.regpc) ≤ memSize) :
    ∃ s1, step keypad rnd s = checkPC s1 ∧
      (∀ px py, px < 64 → py < 32 →
        s1.fb px py =
          if s.regs8 (opX (fetch s.memory s.regpc)) ≤ px ∧
              px < s.regs8 (opX (fetch s.memory s.regpc)) + 8 ∧
              s.regs8 (opY (fetch s.memory s.regpc)) ≤ py ∧
              py < s.regs8 (opY (fetch s.memory s.regpc)) + opN (fetch s.memory s.regpc) then
            xor (s.fb px py)
              ((s.memory (s.regi + (py - s.regs8 (opY (fetch s.memory s.regpc))))).testBit
                (7 - (px - s.regs8 (opX (fetch s.memory s.regpc)))))
          else s.fb px py) ∧
      (∀ px py, ¬ (px < 64 ∧ py < 32) → s1.fb px py = s.fb px py) ∧
      s1.memory = s.memory ∧ s1.regi = s.regi ∧
      (∀ j, j ≠ 0xF → s1.regs8 j = s.regs8 j) := by
  refine ⟨_, step_draw keypad rnd s hfetch hty hmem, ?_, ?_, rfl, rfl, ?_⟩
  · intro px py hpx hpy
    simp only [composite, spriteBit_eq_testBit]
    split_ifs <;> first | rfl | (exfalso; omega)
  · intro px py hout
    simp only [composite]
    rw [if_neg (by omega)]
  · intro j hj
    exact setAt_other _ _ _ _ hj

/-- C8 at the spec's example: the 8-wide sprite `0xFF` drawn with `Vx = 60`,
`Vy = 0` on a black image lights columns 60..63 of row 0 and nothing else. -/
theorem draw_compositing_clipped_witness :
    ∃ s1, step 0 0 (spriteMachine 0x202 (regs3 60 0 0) blankFb) = checkPC s1 ∧
      ∀ px py, px < 64 → py < 32 → (s1.fb px py = true ↔ (60 ≤ px ∧ py = 0)) := by
  obtain ⟨s1, h1, h2, _⟩ := draw_compositing_clipped 0 0
    (spriteMachine 0x202 (regs3 60 0 0) blankFb) (by decide) (by decide) (by decide)
  refine ⟨s1, h1, fun px py hpx hpy => ?_⟩
  rw [h2 px py hpx hpy]
  have hX : (spriteMachine 0x202 (regs3 60 0 0) blankFb).regs8
      (opX (fetch (spriteMachine 0x202 (regs3 60 0 0) blankFb).memory
        (spriteMachine 0x202 (regs3 60 0 0) blankFb).regpc)) = 60 := by decide
  have hY : (spriteMachine 0x202 (regs3 60 0 0) blankFb).regs8
      (opY (fetch (spriteMachine 0x202 (regs3 60 0 0) blankFb).memory
        (spriteMachine 0x202 (regs3 60 0 0) blankFb).regpc)) = 0 := by decide
  have hN : opN (fetch (spriteMachine 0x202 (regs3 60 0 0) blankFb).memory
        (spriteMachine 0x202 (regs3 60 0 0) blankFb).regpc) = 1 := by decide
  rw [hX, hY, hN]
  by_cases hc : 60 ≤ px ∧ px < 60 + 8 ∧ 0 ≤ py ∧ py < 0 + 1
  · rw [if_pos hc]
    obtain ⟨hc1, _, _, hc4⟩ := hc
    have hpy0 : py = 0 := by omega
    subst hpy0
    have hpx4 : px = 60 ∨ px = 61 ∨ px = 62 ∨ px = 63 := by omega
    rcases hpx4 with h | h | h | h <;> subst h <;> decide
  · rw [if_neg hc]
    constructor
    · intro h; cases h
    · intro h; exact absurd (by omega) hc

/-! ## C9: collision flag -/

/-- C9. For an instruction `Dxyn` whose `n` sprite bytes lie inside memory: the
instruction completes with `VF = 1` if and only if some row `r < n` and column
`c < 8` with `Vx + c < 64` and `Vy + r < 32` has the display pixel `(Vx + c, Vy + r)`
on before the draw and bit `7 - c` of `memory[regi + r]` on; and with `VF = 0` if and
only if there is none.  The value `VF` held before plays no part. -/
theorem draw_collision_flag (keypad rnd : Nat) (s : Machine)
    (hfetch : s.regpc + 1 < memSize)
    (hty : opType (fetch s.memory s.regpc) = 0xD)
    (hmem : s.regi + opN (fetch s.memory s.regpc) ≤ memSize) :
    ∃ s1, step keypad rnd s = checkPC s1 ∧
      (s1.regs8 0xF = 1 ↔
        ∃ r, r < opN (fetch s.memory s.regpc) ∧ ∃ c, c < 8 ∧
          s.regs8 (opX (fetch s.memory s.regpc)) + c < 64 ∧
          s.regs8 (opY (fetch s.memory s.regpc)) + r < 32 ∧
          s.fb (s.regs8 (opX (fetch s.memory s.regpc)) + c)
            (s.regs8 (opY (fetch s.memory s.regpc)) + r) = true ∧
          (s.memory (s.regi + r)).testBit (7 - c) = true) ∧
      (s1.regs8 0xF = 0 ↔
        ¬ ∃ r, r < opN (fetch s.memory s.regpc) ∧ ∃ c, c < 8 ∧
          s.regs8 (opX (fetch s.memory s.regpc)) + c < 64 ∧
          s.regs8 (opY (fetch s.memory s.regpc)) + r < 32 ∧
          s.fb (s.regs8 (opX (fetch s.memory s.regpc)) + c)
            (s.regs8 (opY (fetch s.memory s.regpc)) + r) = true ∧
          (s.memory (s.regi + r)).testBit (7 - c) = true) := by
  refine ⟨_, step_draw keypad rnd s hfetch hty hmem, ?_, ?_⟩
  · rw [← spriteHit_iff]
    simp only [setAt_same]
    split_ifs with h <;> simp [h]
  · rw [← spriteHit_iff]
    simp only [setAt_same]
    split_ifs with h <;> simp [h]

/-- C9 at a concrete machine: the sprite `0xFF` drawn at `(0, 0)` on an image whose
top-left pixel is on leaves `VF = 1`, although `VF` held 7 before. -/
theorem draw_collision_flag_witness :
    ∃ s1, step 0 0 (spriteMachine 0x202 (regs3 0 0 7) cornerFb) = checkPC s1 ∧
      s1.regs8 0xF = 1 := by
  obtain ⟨s1, h1, h2, _⟩ := draw_collision_flag 0 0
    (spriteMachine 0x202 (regs3 0 0 7) cornerFb) (by decide) (by decide) (by decide)
  exact ⟨s1, h1, h2.mpr ⟨0, by decide, 0, by decide, by decide, by decide, by decide,
    by decide⟩⟩

/-! ## C10: drawing twice -/

/-- Compositing the same sprite at the same origin twice gives back the image. -/
theorem composite_twice (memory : Nat → Nat) (regi x y n : Nat) (fb : Framebuffer) :
    composite memory regi x y n (composite memory regi x y n fb) = fb := by
  funext px py
  simp only [composite]
  split_ifs
  · cases fb px py <;> cases spriteBit (memory (regi + (py - y))) (px - x) <;> rfl
  · rfl

/-- C10. If the instruction at `P = regpc` is `Dxyn` with `x` and `y` both different
from `0xF`, the same opcode sits at `P + 2`, the `n` sprite bytes lie inside memory
and `P + 2 < 0xFFF`, then both draws complete and the display after the second is
the display before the first.  If moreover every grid pixel was off before the
first draw and some on sprite bit lands inside the grid, then `VF = 0` after the
first draw and `VF = 1` after the second. -/
theorem draw_twice_identity (kp1 rnd1 kp2 rnd2 : Nat) (s : Machine)
    (hpc : s.regpc + 2 < 0xFFF)
    (hty : opType (fetch s.memory s.regpc) = 0xD)
    (hsame : fetch s.memory (s.regpc + 2) = fetch s.memory s.regpc)
    (hx : opX (fetch s.memory s.regpc) ≠ 0xF)
    (hy : opY (fetch s.memory s.regpc) ≠ 0xF)
    (hmem : s.regi + opN (fetch s.memory s.regpc) ≤ memSize) :
    ∃ s1 s2, step kp1 rnd1 s = .ok s1 ∧ step kp2 rnd2 s1 = checkPC s2 ∧
      s2.fb = s.fb ∧
      ((∀ px py, px < 64 → py < 32 → s.fb px py = false) →
        (∃ r, r < opN (fetch s.memory s.regpc) ∧ ∃ c, c < 8 ∧
          s.regs8 (opX (fetch s.memory s.regpc)) + c < 64 ∧
          s.regs8 (opY (fetch s.memory s.regpc)) + r < 32 ∧
          (s.memory (s.regi + r)).testBit (7 - c) = true) →
        s1.regs8 0xF = 0 ∧ s2.regs8 0xF = 1) := by
  have hfetch : s.regpc + 1 < memSize := by simp only [memSize]; omega
  have e1 := step_draw kp1 rnd1 s hfetch hty hmem
  have hok : ¬ 0xFFF ≤ s.regpc + 2 := by omega
  simp only [checkPC, hok, if_false] at e1
  have e2 := step_draw kp2 rnd2
    { s with
      regpc := s.regpc + 2,
      regs8 := setAt s.regs8 0xF
        (if spriteHit s.memory s.regi (s.regs8 (opX (fetch s.memory s.regpc)))
          (s.regs8 (opY (fetch s.memory s.regpc))) (opN (fetch s.memory s.regpc)) s.fb
         then 1 else 0),
      fb := composite s.memory s.regi (s.regs8 (opX (fetch s.memory s.regpc)))
          (s.regs8 (opY (fetch s.memory s.regpc))) (opN (fetch s.memory s.regpc)) s.fb }
    (show (s.regpc + 2) + 1 < memSize by simp only [memSize]; omega)
    (by simp only [hsame]; exact hty)
    (by simp only [hsame]; exact hmem)
  simp only [hsame, setAt_other _ _ _ _ hx, setAt_other _ _ _ _ hy, composite_twice] at e2
  refine ⟨_, _, e1, e2, rfl, ?_⟩
  intro hoff ⟨r, hr, c, hc, hcx, hry, hbit⟩
  have h1 : spriteHit s.memory s.regi (s.regs8 (opX (fetch s.memory s.regpc)))
      (s.regs8 (opY (fetch s.memory s.regpc))) (opN (fetch s.memory s.regpc)) s.fb = false := by
    rw [Bool.eq_false_iff]
    intro h
    obtain ⟨r1, _, c1, _, h3, h4, h5, _⟩ := (spriteHit_iff _ _ _ _ _ _).mp h
    rw [hoff _ _ h3 h4] at h5
    cases h5
  have h2 : spriteHit s.memory s.regi (s.regs8 (opX (fetch s.memory s.regpc)))
      (s.regs8 (opY (fetch s.memory s.regpc))) (opN (fetch s.memory s.regpc))
      (composite s.memory s.regi (s.regs8 (opX (fetch s.memory s.regpc)))
        (s.regs8 (opY (fetch s.memory s.regpc))) (opN (fetch s.memory s.regpc)) s.fb) = true := by
    rw [spriteHit_iff]
    refine ⟨r, hr, c, hc, hcx, hry, ?_, hbit⟩
    simp only [composite]
    rw [if_pos (by omega), hoff _ _ hcx hry, spriteBit_eq_testBit, Nat.add_sub_cancel_left,
      Nat.add_sub_cancel_left, hbit]
    rfl
  constructor
  · simp only [setAt_same, h1]; rfl
  · simp only [setAt_same, h2]; rfl

/-- C10 at the spec's example: `CLS`, then the sprite byte `0xFF` drawn at `(0, 0)`
with `n = 1`, twice: the image is black again, with `VF = 0` after the first draw
and `VF = 1` after the second. -/
theorem draw_twice_identity_witness :
    ∃ s0 s1 s2, step 0 0 (spriteMachine 0x200 (regs3 0 0 0) cornerFb) = .ok s0 ∧
      step 0 0 s0 = .ok s1 ∧ step 0 0 s1 = checkPC s2 ∧
      s0.fb = blankFb ∧ s2.fb = blankFb ∧ s1.regs8 0xF = 0 ∧ s2.regs8 0xF = 1 := by
  obtain ⟨s1, s2, h1, h2, h3, h4⟩ := draw_twice_identity 0 0 0 0
    (spriteMachine 0x202 (regs3 0 0 0) blankFb) (by decide) (by decide) (by decide)
    (by decide) (by decide) (by decide)
  obtain ⟨h5, h6⟩ := h4 (fun _ _ _ _ => rfl)
    ⟨0, by decide, 0, by decide, by decide, by decide, by decide⟩
  exact ⟨spriteMachine 0x202 (regs3 0 0 0) blankFb, s1, s2, rfl, h1, h2, rfl, h3, h5, h6⟩

/-! ## C11, C12, C13: the memory instructions of the `Fx..` group -/

/-- A step on an opcode of type `0xF` runs the miscellaneous group on the state
with `regpc` advanced, then the range check. -/
theorem step_misc (keypad rnd : Nat) (s : Machine)
    (hfetch : s.regpc + 1 < memSize)
    (hty : opType (fetch s.memory s.regpc) = 0xF) :
    step keypad rnd s =
      match execMisc (fetch s.memory s.regpc) { s with regpc := (s.regpc + 2) % 65536 } with
      | .ok s1 => checkPC s1
      | o => o := by
  obtain ⟨h1, h2⟩ := ne_cls_ret_of_type _ (by rw [hty]; decide)
  have hf : ¬ memSize ≤ s.regpc + 1 := by omega
  simp [step, dispatch, hf, h1, h2, hty]

/-- What `Fx33` does (lines 361-366): it writes `0`, `0`, `Vx` at `regi`, `regi + 1`,
`regi + 2` and leaves every other byte and every register as it was. -/
theorem bcd_general (keypad rnd : Nat) (s : Machine)
    (hfetch : s.regpc + 1 < memSize)
    (hty : opType (fetch s.memory s.regpc) = 0xF)
    (hkk : opKK (fetch s.memory s.regpc) = 0x33)
    (hmem : s.regi + 2 < memSize) :
    ∃ s1, step keypad rnd s = checkPC s1 ∧
      s1.memory s.regi = 0 ∧ s1.memory (s.regi + 1) = 0 ∧
      s1.memory (s.regi + 2) = s.regs8 (opX (fetch s.memory s.regpc)) ∧
      (∀ a, a ≠ s.regi → a ≠ s.regi + 1 → a ≠ s.regi + 2 → s1.memory a = s.memory a) ∧
      s1.regs8 = s.regs8 ∧ s1.regi = s.regi := by
  have e := step_misc keypad rnd s hfetch hty
  have hm : ¬ memSize ≤ s.regi + 2 := by omega
  simp only [execMisc, hkk, hm, if_false] at e
  refine ⟨_, e, ?_, ?_, ?_, ?_, rfl, rfl⟩
  · simp [setAt]
  · simp [setAt]
  · simp [setAt]
  · intro a h0 h1 h2
    simp [setAt, h0, h1, h2]

/-- C11, the code at the spec's example: with `Vx = 234`, `F033` completes having
written `0, 0, 234` at `regi, regi + 1, regi + 2`, not the digits `2, 3, 4`. -/
theorem bcd_store_writes_raw_value :
    ∃ s1, step 0 0 (dataMachine 0xF0 0x33 (regs3 234 0 0)) = .ok s1 ∧
      s1.memory 0x300 = 0 ∧ s1.memory 0x301 = 0 ∧ s1.memory 0x302 = 234 ∧
      234 / 100 = 2 ∧ (234 / 10) % 10 = 3 ∧ 234 % 10 = 4 :=
  ⟨_, rfl, by decide, by decide, by decide, by decide, by decide, by decide⟩

/-- C12, the code at a concrete state: with `V0 = 7`, `V1 = 9` and `AA BB` at
`regi`, `F155` completes with memory unchanged (`AA BB` still at `regi`) and with
`V0 = 0xAA` read from memory; `V1` is untouched. -/
theorem reg_store_reads_memory :
    ∃ s1, step 0 0 (dataMachine 0xF1 0x55 (regs3 7 9 0)) = .ok s1 ∧
      s1.memory = (dataMachine 0xF1 0x55 (regs3 7 9 0)).memory ∧
      s1.memory 0x300 = 0xAA ∧ s1.memory 0x301 = 0xBB ∧
      s1.regs8 0 = 0xAA ∧ s1.regs8 1 = 9 :=
  ⟨_, rfl, rfl, by decide, by decide, by decide, by decide⟩

/-- C13, the code at a concrete state: with `V0 = 7`, `V1 = 9` and `AA BB` at
`regi`, `F165` completes with the registers unchanged and with `memory[regi] = 7`
written from `V0`; `memory[regi + 1]` is untouched. -/
theorem reg_load_writes_memory :
    ∃ s1, step 0 0 (dataMachine 0xF1 0x65 (regs3 7 9 0)) = .ok s1 ∧
      s1.regs8 = (dataMachine 0xF1 0x65 (regs3 7 9 0)).regs8 ∧
      s1.regs8 0 = 7 ∧ s1.regs8 1 = 9 ∧
      s1.memory 0x300 = 7 ∧ s1.memory 0x301 = 0xBB :=
  ⟨_, rfl, rfl, by decide, by decide, by decide, by decide⟩

/-! ## C14, C15: the `5xy?` group -/

/-- What `5xyn` does when `n` is not 0 (lines 189-202): nothing but the advance of
`regpc`; no halt is raised by the dispatch. -/
theorem skip_eq_bad_nibble_general (keypad rnd : Nat) (s : Machine)
    (hfetch : s.regpc + 1 < memSize)
    (hty : opType (fetch s.memory s.regpc) = 5)
    (hn : opN (fetch s.memory s.regpc) ≠ 0) :
    step keypad rnd s = checkPC { s with regpc := s.regpc + 2 } := by
  obtain ⟨h1, h2⟩ := ne_cls_ret_of_type _ (by rw [hty]; decide)
  have hf : ¬ memSize ≤ s.regpc + 1 := by omega
  simp [step, dispatch, hf, h1, h2, hty, hn, pc_advance s hfetch]

/-- What `5xy0` does (lines 189-202): it skips when `Vx = Vy` and halts through the
`// TODO: crash` return when `Vx` and `Vy` differ. -/
theorem skip_eq_general (keypad rnd : Nat) (s : Machine)
    (hfetch : s.regpc + 1 < memSize)
    (hty : opType (fetch s.memory s.regpc) = 5)
    (hn : opN (fetch s.memory s.regpc) = 0) :
    (s.regs8 (opX (fetch s.memory s.regpc)) = s.regs8 (opY (fetch s.memory s.regpc)) →
      step keypad rnd s = checkPC { s with regpc := s.regpc + 4 }) ∧
    (s.regs8 (opX (fetch s.memory s.regpc)) ≠ s.regs8 (opY (fetch s.memory s.regpc)) →
      step keypad rnd s = .halt .InvalidOpcode { s with regpc := s.regpc + 2 }) := by
  obtain ⟨h1, h2⟩ := ne_cls_ret_of_type _ (by rw [hty]; decide)
  have hf : ¬ memSize ≤ s.regpc + 1 := by omega
  have h4 : (s.regpc + 2 + 2) % 65536 = s.regpc + 4 := by
    simp only [memSize] at hfetch
    omega
  constructor
  · intro he
    simp [step, dispatch, hf, h1, h2, hty, hn, he, pc_advance s hfetch, h4]
  · intro hne
    simp [step, dispatch, hf, h1, h2, hty, hn, hne, pc_advance s hfetch]

/-- C14, the code at the spec's example: opcode `5001` completes as a no-operation
with `regpc = 0x202`; the step is not a halt. -/
theorem skip_eq_bad_nibble_is_noop :
    step 0 0 (oneInstr 0x50 0x01 (regs3 0 0 0)) =
      .ok { oneInstr 0x50 0x01 (regs3 0 0 0) with regpc := 0x202 } ∧
    ∀ s1, step 0 0 (oneInstr 0x50 0x01 (regs3 0 0 0)) ≠ .halt .InvalidOpcode s1 :=
  ⟨rfl, fun _ h => Outcome.noConfusion ((rfl : step 0 0 (oneInstr 0x50 0x01 (regs3 0 0 0)) =
      .ok { oneInstr 0x50 0x01 (regs3 0 0 0) with regpc := 0x202 }).symm.trans h)⟩

/-- C15, the code at a concrete state: with `V0 = 1`, `V1 = 2`, opcode `5010` at
`0x200` (so `P + 4 < 0xFFF`) halts, where the claim has the step complete with
`regpc = P + 2`. -/
theorem skip_eq_halts_when_different :
    step 0 0 (oneInstr 0x50 0x10 (regs3 1 2 0)) =
      .halt .InvalidOpcode { oneInstr 0x50 0x10 (regs3 1 2 0) with regpc := 0x202 } :=
  rfl

/-! ## C16: opcodes `0nnn` other than `00E0` and `00EE` -/

/-- What an opcode of type 0 other than `00E0` and `00EE` does (lines 386-390): the
iteration enters the endless loop of line 389, `regpc` being advanced and nothing
else changed. -/
theorem unmatched_general (keypad rnd : Nat) (s : Machine)
    (hfetch : s.regpc + 1 < memSize)
    (hty : opType (fetch s.memory s.regpc) = 0)
    (h1 : fetch s.memory s.regpc ≠ 0x00E0) (h2 : fetch s.memory s.regpc ≠ 0x00EE) :
    step keypad rnd s = .hang { s with regpc := s.regpc + 2 } := by
  have hf : ¬ memSize ≤ s.regpc + 1 := by omega
  simp [step, dispatch, hf, h1, h2, hty, pc_advance s hfetch]

/-- C16, the code at a concrete opcode: `0123` does not halt; the iteration never
returns from the endless loop of line 389. -/
theorem unmatched_opcode_hangs :
    step 0 0 (oneInstr 0x01 0x23 (regs3 0 0 0)) =
      .hang { oneInstr 0x01 0x23 (regs3 0 0 0) with regpc := 0x202 } :=
  rfl

/-! ## C20: flag-setting instructions whose source is `VF` -/

/-- C20, the code with source `y = 0xF` and `V0 = 1`, `VF = 5`: `80F4` leaves
`V0 = 1` (not `1 + 5`), `80F5` leaves `V0 = 1` (not `(1 - 5) mod 256 = 252`) and
`80F7` leaves `V0 = 255` (not `5 - 1 = 4`): the data operation reads the flag just
written to `VF`, which is 0 in all three. -/
theorem source_vf_read_after_flag_write :
    (∃ s1, step 0 0 (oneInstr 0x80 0xF4 (regs3 1 0 5)) = .ok s1 ∧
      s1.regs8 0 = 1 ∧ s1.regs8 0xF = 0) ∧
    (∃ s1, step 0 0 (oneInstr 0x80 0xF5 (regs3 1 0 5)) = .ok s1 ∧
      s1.regs8 0 = 1 ∧ s1.regs8 0xF = 0) ∧
    (∃ s1, step 0 0 (oneInstr 0x80 0xF7 (regs3 1 0 5)) = .ok s1 ∧
      s1.regs8 0 = 255 ∧ s1.regs8 0xF = 0) :=
  ⟨⟨_, rfl, by decide, by decide⟩, ⟨_, rfl, by decide, by decide⟩,
    ⟨_, rfl, by decide, by decide⟩⟩

/-! ## C18: range of `regpc` and safety of the fetch -/

/-- An iteration that reaches the end of the loop body has passed the range check
of lines 394-398. -/
theorem step_ok_pc_lt (keypad rnd : Nat) (s s1 : Machine)
    (h : step keypad rnd s = .ok s1) : s1.regpc < 0xFFF := by
  unfold step at h
  split_ifs at h
  revert h
  simp only
  split
  · rename_i s2 _
    unfold checkPC
    split_ifs with hc
    · intro h; cases h
    · intro h
      cases h
      omega
  · rename_i o hne
    intro h
    exact absurd h (hne s1)

/-- C18. An instruction that completes with `regpc >= 0xFFF` makes the step halt with
`ProgramCounterOutOfRange`; hence every state reachable from the initial state
(`regpc = 0x200`) by non-halting steps has `regpc < 0xFFF`, both fetch addresses
`regpc` and `regpc + 1` are below 4096, and the step taken there is not the
out-of-bounds fetch. -/
theorem pc_range_fetch_safe (s : Machine) (h : Reachable s) :
    (∀ keypad rnd s1,
      dispatch keypad rnd (fetch s.memory s.regpc)
        { s with regpc := (s.regpc + 2) % 65536 } = .ok s1 →
      0xFFF ≤ s1.regpc → step keypad rnd s = .halt .ProgramCounterOutOfRange s1) ∧
    s.regpc < 0xFFF ∧ s.regpc < 4096 ∧ s.regpc + 1 < 4096 ∧
    (∀ keypad rnd, step keypad rnd s =
      match dispatch keypad rnd (fetch s.memory s.regpc)
        { s with regpc := (s.regpc + 2) % 65536 } with
      | .ok s1 => checkPC s1
      | o => o) := by
  have hlt : s.regpc < 0xFFF := by
    cases h with
    | init memory => simp [initial]
    | next keypad rnd s0 _ _ hstep => exact step_ok_pc_lt keypad rnd s0 s hstep
  have hf : ¬ memSize ≤ s.regpc + 1 := by simp only [memSize]; omega
  have hstep : ∀ keypad rnd, step keypad rnd s =
      match dispatch keypad rnd (fetch s.memory s.regpc)
        { s with regpc := (s.regpc + 2) % 65536 } with
      | .ok s1 => checkPC s1
      | o => o := by
    intro keypad rnd
    simp only [step, hf, if_false]
  refine ⟨?_, hlt, by omega, by omega, hstep⟩
  intro keypad rnd s1 hd hge
  rw [hstep, hd]
  simp only [checkPC, hge, if_true]

/-- C18 at a concrete reachable state: the self-calling program after its first
call has `regpc = 0x200`, inside the range. -/
theorem pc_range_fetch_safe_witness :
    ∃ s1, step 0 0 (initial selfCallMachine.memory) = .ok s1 ∧
      s1.regpc < 0xFFF ∧ s1.regpc + 1 < 4096 := by
  have h := pc_range_fetch_safe _
    (Reachable.next 0 0 (initial selfCallMachine.memory) _ (Reachable.init _) rfl)
  exact ⟨_, rfl, h.2.1, h.2.2.2.1⟩

/-! ## C19: state at a halt raised by the dispatch -/

theorem execAlu_halt (opcode : Nat) (s s1 : Machine) (r : HaltReason)
    (h : execAlu opcode s = .halt r s1) : s1 = s := by
  unfold execAlu at h
  simp only at h
  split at h <;> cases h
  rfl

theorem execKey_halt (keypad opcode : Nat) (s s1 : Machine) (r : HaltReason)
    (h : execKey keypad opcode s = .halt r s1) : s1 = s := by
  unfold execKey at h
  simp only at h
  split at h
  · split_ifs at h
  · split_ifs at h
  · cases h; rfl

theorem execMisc_halt (opcode : Nat) (s s1 : Machine) (r : HaltReason)
    (h : execMisc opcode s = .halt r s1) : s1 = s := by
  unfold execMisc at h
  simp only at h
  split at h
  all_goals first
    | (cases h; rfl)
    | (split_ifs at h)
    | cases h

theorem execDraw_halt (opcode : Nat) (s s1 : Machine) (r : HaltReason)
    (h : execDraw opcode s = .halt r s1) : False := by
  unfold execDraw at h
  simp only at h
  split_ifs at h
  split at h <;> cases h

/-- A halt raised by the dispatch leaves the state it was given. -/
theorem dispatch_halt (keypad rnd opcode : Nat) (s s1 : Machine) (r : HaltReason)
    (h : dispatch keypad rnd opcode s = .halt r s1) : s1 = s := by
  unfold dispatch at h
  simp only at h
  by_cases h1 : opcode = 0x00E0
  · rw [if_pos h1] at h; cases h
  rw [if_neg h1] at h
  by_cases h2 : opcode = 0x00EE
  · rw [if_pos h2] at h
    split at h <;> cases h
    rfl
  rw [if_neg h2] at h
  split at h
  all_goals first
    | exact execAlu_halt _ _ _ _ h
    | exact execKey_halt _ _ _ _ _ h
    | exact execMisc_halt _ _ _ _ h
    | exact (execDraw_halt _ _ _ _ h).elim
    | (split_ifs at h <;> cases h <;> rfl)
    | cases h

/-- C19. Whenever a step halts with `StackOverflow`, `StackUnderflow` or
`InvalidOpcode`, the state at the halt has the registers `V0..VF`, `regi`, the
memory, the call stack and the display of the state before the step, and `regpc`
is the address of the instruction plus 2. -/
theorem fatal_halt_atomic (keypad rnd : Nat) (s s1 : Machine) (r : HaltReason)
    (h : step keypad rnd s = .halt r s1)
    (hr : r = .StackOverflow ∨ r = .StackUnderflow ∨ r = .InvalidOpcode) :
    s1.regs8 = s.regs8 ∧ s1.regi = s.regi ∧ s1.memory = s.memory ∧
      s1.stack = s.stack ∧ s1.fb = s.fb ∧ s1.regpc = s.regpc + 2 := by
  have hne : r ≠ .ProgramCounterOutOfRange := by
    rcases hr with hr | hr | hr <;> subst hr <;> decide
  unfold step at h
  split_ifs at h with hf
  have hfetch : s.regpc + 1 < memSize := by omega
  revert h
  simp only
  split
  · rename_i s2 _
    intro h
    exact absurd h (checkPC_ne_halt_stack _ _ _ hne)
  · rename_i o _
    intro h
    have e := dispatch_halt _ _ _ _ _ _ h
    subst e
    exact ⟨rfl, rfl, rfl, rfl, rfl, pc_advance s hfetch⟩

/-- C19 at a concrete halt: `00EE` on the empty stack halts with `StackUnderflow`,
everything but `regpc` being as before. -/
theorem fatal_halt_atomic_witness :
    ∃ s1, step 0 0 (oneInstr 0x00 0xEE (regs3 1 2 3)) = .halt .StackUnderflow s1 ∧
      s1.regs8 = regs3 1 2 3 ∧ s1.stack = [] ∧ s1.regpc = 0x202 := by
  have h := fatal_halt_atomic 0 0 (oneInstr 0x00 0xEE (regs3 1 2 3))
    { oneInstr 0x00 0xEE (regs3 1 2 3) with regpc := 0x202 } .StackUnderflow rfl
    (Or.inr (Or.inl rfl))
  exact ⟨_, rfl, h.1, h.2.2.2.1, h.2.2.2.2.2⟩

/-! ## C17: alignment of `regpc` -/

theorem execAlu_ctrl (opcode : Nat) (s : Machine) :
    (execAlu opcode s).All (fun s1 => s1.stack = s.stack ∧ s1.regpc = s.regpc) := by
  unfold execAlu
  split <;> simp [Outcome.All]

theorem execMisc_ctrl (opcode : Nat) (s : Machine) :
    (execMisc opcode s).All (fun s1 => s1.stack = s.stack ∧ s1.regpc = s.regpc) := by
  unfold execMisc
  simp only
  split <;> (repeat' split) <;> simp [Outcome.All]

theorem execDraw_ctrl (opcode : Nat) (s : Machine) :
    (execDraw opcode s).All (fun s1 => s1.stack = s.stack ∧ s1.regpc = s.regpc) := by
  unfold execDraw
  simp only
  split_ifs
  · simp [Outcome.All]
  · split <;> simp [Outcome.All]

theorem execKey_ctrl (keypad opcode : Nat) (s : Machine) :
    (execKey keypad opcode s).All (fun s1 => s1.stack = s.stack ∧
      (s1.regpc = s.regpc ∨ s1.regpc = (s.regpc + 2) % 65536)) := by
  unfold execKey
  simp only
  split <;> (repeat' split) <;> simp [Outcome.All]

/-- The dispatch keeps `regpc` and the return addresses even, when the target of a
jump or call is even. -/
theorem dispatch_even (keypad rnd opcode : Nat) (s : Machine)
    (hinv : EvenControl s)
    (hjmp : (opType opcode = 1 ∨ opType opcode = 2) → opNNN opcode % 2 = 0)
    (hjv0 : opType opcode = 0xB → (opNNN opcode + s.regs8 0) % 2 = 0) :
    (dispatch keypad rnd opcode s).All EvenControl := by
  obtain ⟨hpc, hst⟩ := hinv
  have hskip : ((s.regpc + 2) % 65536) % 2 = 0 := by omega
  have hs : ∀ o : Outcome, o.All (fun s1 => s1.stack = s.stack ∧ s1.regpc = s.regpc) →
      o.All EvenControl :=
    fun o ho => Outcome.All_mono o (fun s1 h1 => by
      unfold EvenControl
      rw [h1.1, h1.2]
      exact ⟨hpc, hst⟩) ho
  have hk : ∀ o : Outcome, o.All (fun s1 => s1.stack = s.stack ∧
      (s1.regpc = s.regpc ∨ s1.regpc = (s.regpc + 2) % 65536)) → o.All EvenControl :=
    fun o ho => Outcome.All_mono o (fun s1 h1 => by
      unfold EvenControl
      rw [h1.1]
      rcases h1.2 with h2 | h2 <;> rw [h2]
      · exact ⟨hpc, hst⟩
      · exact ⟨hskip, hst⟩) ho
  unfold dispatch
  simp only
  by_cases h1 : opcode = 0x00E0
  · rw [if_pos h1]
    exact ⟨hpc, hst⟩
  rw [if_neg h1]
  by_cases h2 : opcode = 0x00EE
  · rw [if_pos h2]
    split
    · exact ⟨hpc, hst⟩
    · rename_i top rest heq
      rw [heq] at hst
      exact ⟨hst top (List.mem_cons_self _ _), fun a ha => hst a (List.mem_cons_of_mem _ ha)⟩
  rw [if_neg h2]
  split
  · rename_i hty
    exact ⟨hjmp (Or.inl hty), hst⟩
  · rename_i hty
    split
    · exact ⟨hpc, hst⟩
    · refine ⟨hjmp (Or.inr hty), ?_⟩
      intro a ha
      rcases List.mem_cons.mp ha with h | h
      · rw [h]; exact hpc
      · exact hst a h
  · split
    · exact ⟨hskip, hst⟩
    · exact ⟨hpc, hst⟩
  · split
    · exact ⟨hskip, hst⟩
    · exact ⟨hpc, hst⟩
  · repeat' split
    · exact ⟨hskip, hst⟩
    · exact ⟨hpc, hst⟩
    · exact ⟨hpc, hst⟩
  · exact ⟨hpc, hst⟩
  · exact ⟨hpc, hst⟩
  · exact hs _ (execAlu_ctrl _ _)
  · repeat' split
    · exact ⟨hskip, hst⟩
    · exact ⟨hpc, hst⟩
    · exact ⟨hpc, hst⟩
  · exact ⟨hpc, hst⟩
  · rename_i hty
    refine ⟨?_, hst⟩
    have := hjv0 hty
    show ((opNNN opcode + s.regs8 0) % 65536) % 2 = 0
    omega
  · exact ⟨hpc, hst⟩
  · exact hs _ (execDraw_ctrl _ _)
  · exact hk _ (execKey_ctrl _ _ _)
  · exact hs _ (execMisc_ctrl _ _)
  · exact ⟨hpc, hst⟩

/-- One completed iteration with an even jump target keeps `regpc` and the return
addresses even. -/
theorem step_even (keypad rnd : Nat) (s s1 : Machine)
    (hinv : EvenControl s) (hj : jumpAligned s)
    (h : step keypad rnd s = .ok s1) : EvenControl s1 := by
  have hpc2 : ((s.regpc + 2) % 65536) % 2 = 0 := by have := hinv.1; omega
  have hd := dispatch_even keypad rnd (fetch s.memory s.regpc)
    { s with regpc := (s.regpc + 2) % 65536 } ⟨hpc2, hinv.2⟩ hj.1 hj.2
  unfold step at h
  split_ifs at h
  revert h
  simp only
  split
  · rename_i s2 heq
    rw [heq] at hd
    unfold checkPC
    split_ifs
    · intro h; cases h
    · intro h
      cases h
      exact hd
  · rename_i o hne
    intro h
    exact absurd h (hne s1)

/-- C17 as stated fails: the ROM `12 03` (jump to `0x203`) loaded at `0x200` takes
the initial state in one non-halting step to a state with `regpc = 0x203`, odd. -/
theorem pc_odd_after_jump :
    ∃ s, Reachable s ∧ s.regpc = 0x203 ∧ s.regpc % 2 = 1 :=
  ⟨{ initial (loadedMemory [0x12, 0x03]) with regpc := 0x203 },
    Reachable.next 0 0 (initial (loadedMemory [0x12, 0x03])) _ (Reachable.init _) rfl,
    rfl, rfl⟩

/-- C17, amended. In every state reachable from the initial state (`regpc = 0x200`,
any memory) by non-halting steps in which every executed `1nnn` and `2nnn` has an
even `nnn` and every executed `Bnnn` has an even `nnn + V0`, `regpc` is even. -/
theorem pc_even_when_targets_even (s : Machine) (h : ReachableAligned s) :
    s.regpc % 2 = 0 := by
  have hinv : EvenControl s := by
    induction h with
    | init memory => exact ⟨by simp [initial], fun a ha => by simp [initial] at ha⟩
    | next keypad rnd s s1 _ hj hstep ih => exact step_even keypad rnd s s1 ih hj hstep
  exact hinv.1

/-- C17 amended, at a concrete run: the ROM `12 04` (jump to `0x204`) leaves
`regpc = 0x204`, even. -/
theorem pc_even_when_targets_even_witness :
    ∃ s1, step 0 0 (initial (loadedMemory [0x12, 0x04])) = .ok s1 ∧ s1.regpc = 0x204 ∧
      s1.regpc % 2 = 0 :=
  ⟨_, rfl, rfl, pc_even_when_targets_even _
    (ReachableAligned.next 0 0 (initial (loadedMemory [0x12, 0x04])) _
      (ReachableAligned.init _) (by decide) rfl)⟩

end Chip8
